import Mathlib

/-!
Verification of the session persistence subsystem (`nv/session.py`).

The Python module holds a process-wide session mapping, a per-document
sub-store backed by a `defaultdict`, and load/save entry points that
serialize the session mapping to a single JSON file.  The development
below is a shallow embedding: Python dicts become association lists
(insertion order preserved, unique keys maintained by `upsert`),
JSON-representable Python values become the inductive type `PyVal`,
the standard-library `json.loads`/`json.dumps` calls become a concrete
recursive-descent parser and printer over those trees, and exceptions
become `Except` values carrying the partially-mutated state.
-/

namespace NvSession

/-- Python value keys: after the decode hook, dictionary keys are either
integers or strings.  JSON parsing itself only produces string keys. -/
inductive PyKey where
  | int (n : Int)
  | str (s : String)
deriving DecidableEq, Repr

/-- JSON-representable Python values.  Numbers are modelled as integers:
the session file written by this module only ever holds strings, integers
and containers, so the float-typed corner of `json` is out of model. -/
inductive PyVal where
  | none
  | bool (b : Bool)
  | int (n : Int)
  | str (s : String)
  | list (xs : List PyVal)
  | dict (kvs : List (PyKey × PyVal))

/-- First-match lookup in an association list (Python `d[k]` / `in`). -/
def alookup {α β : Type} [DecidableEq α] : List (α × β) → α → Option β
  | [], _ => Option.none
  | kv :: rest, k => if kv.1 = k then some kv.2 else alookup rest k

/-- Python dict assignment `d[k] = v`: update in place when the key is
present, append at the end otherwise (insertion order semantics). -/
def upsert {α β : Type} [DecidableEq α] (l : List (α × β)) (k : α) (v : β) :
    List (α × β) :=
  if k ∈ l.map Prod.fst then l.map (fun kv => if kv.1 = k then (k, v) else kv)
  else l ++ [(k, v)]

theorem upsert_of_not_mem {α β : Type} [DecidableEq α]
    (l : List (α × β)) (k : α) (v : β) (h : k ∉ l.map Prod.fst) :
    upsert l k v = l ++ [(k, v)] := by
  simp [upsert, h]

theorem alookup_append_of_not_mem {α β : Type} [DecidableEq α]
    (l l' : List (α × β)) (k : α) (h : k ∉ l.map Prod.fst) :
    alookup (l ++ l') k = alookup l' k := by
  induction l with
  | nil => rfl
  | cons kv rest ih =>
    simp only [List.map_cons, List.mem_cons] at h
    push_neg at h
    simp [alookup, Ne.symm h.1, ih h.2]

theorem alookup_upsert_self {α β : Type} [DecidableEq α]
    (l : List (α × β)) (k : α) (v : β) :
    alookup (upsert l k v) k = some v := by
  unfold upsert
  split
  case isTrue h =>
    induction l with
    | nil => simp at h
    | cons kv rest ih =>
      by_cases hk : kv.1 = k
      · simp [alookup, hk]
      · simp only [List.map_cons, List.mem_cons] at h
        rcases h with h | h
        · exact absurd h.symm hk
        · simp [alookup, hk, ih h]
  case isFalse h =>
    rw [alookup_append_of_not_mem _ _ _ h]
    simp [alookup]

theorem alookup_map_subst_ne {α β : Type} [DecidableEq α]
    (l : List (α × β)) (k k' : α) (v : β) (h : k' ≠ k) :
    alookup (l.map (fun kv => if kv.1 = k then (k, v) else kv)) k' =
      alookup l k' := by
  induction l with
  | nil => rfl
  | cons kv rest ih =>
    by_cases hk : kv.1 = k
    · simp [alookup, hk, Ne.symm h, ih]
    · simp [alookup, hk, ih]

theorem alookup_append_single_ne {α β : Type} [DecidableEq α]
    (l : List (α × β)) (k k' : α) (v : β) (h : k' ≠ k) :
    alookup (l ++ [(k, v)]) k' = alookup l k' := by
  induction l with
  | nil => simp [alookup, Ne.symm h]
  | cons kv rest ih =>
    by_cases hk' : kv.1 = k'
    · simp [alookup, hk']
    · simp [alookup, hk', ih]

theorem alookup_upsert_ne {α β : Type} [DecidableEq α]
    (l : List (α × β)) (k k' : α) (v : β) (h : k' ≠ k) :
    alookup (upsert l k v) k' = alookup l k' := by
  unfold upsert
  split
  · exact alookup_map_subst_ne l k k' v h
  · exact alookup_append_single_ne l k k' v h

mutual

/-- Structural Boolean equality on `PyVal` (deriving `DecidableEq` is not
available for this nested inductive type). -/
def pvBEq : PyVal → PyVal → Bool
  | .none, .none => true
  | .bool a, .bool b => a == b
  | .int a, .int b => a == b
  | .str a, .str b => a == b
  | .list xs, .list ys => pvlBEq xs ys
  | .dict xs, .dict ys => pvkBEq xs ys
  | _, _ => false

def pvlBEq : List PyVal → List PyVal → Bool
  | [], [] => true
  | x :: xs, y :: ys => pvBEq x y && pvlBEq xs ys
  | _, _ => false

def pvkBEq : List (PyKey × PyVal) → List (PyKey × PyVal) → Bool
  | [], [] => true
  | (k, v) :: xs, (k', v') :: ys => k == k' && pvBEq v v' && pvkBEq xs ys
  | _, _ => false

end

mutual

theorem pvBEq_refl : ∀ a : PyVal, pvBEq a a = true
  | .none => rfl
  | .bool b => by simp [pvBEq]
  | .int n => by simp [pvBEq]
  | .str s => by simp [pvBEq]
  | .list xs => by rw [pvBEq]; exact pvlBEq_refl xs
  | .dict kvs => by rw [pvBEq]; exact pvkBEq_refl kvs

theorem pvlBEq_refl : ∀ xs : List PyVal, pvlBEq xs xs = true
  | [] => rfl
  | x :: xs => by rw [pvlBEq]; simp [pvBEq_refl x, pvlBEq_refl xs]

theorem pvkBEq_refl : ∀ l : List (PyKey × PyVal), pvkBEq l l = true
  | [] => rfl
  | (k, v) :: rest => by rw [pvkBEq]; simp [pvBEq_refl v, pvkBEq_refl rest]

end

/-- Concrete disequality of `PyVal` trees from a `rfl`-checkable `pvBEq`. -/
theorem pv_ne_of_bne {a b : PyVal} (h : pvBEq a b = false) : a ≠ b := by
  intro e
  rw [e, pvBEq_refl] at h
  exact Bool.noConfusion h

/-! ### Decimal strings

Python `str.isdigit` and `int(...)` on digit strings, restricted to the
ASCII decimal digits (the only digits the module ever produces or reads
back, since it wrote the file itself via `json.dumps`). -/

/-- Python `s.isdigit()` on a character list: nonempty and all digits. -/
def pyIsDigitL (cs : List Char) : Bool :=
  !cs.isEmpty && cs.all Char.isDigit

/-- Python `s.isdigit()`. -/
def pyIsDigit (s : String) : Bool :=
  pyIsDigitL s.data

/-- Decimal value of a digit list, most significant digit first. -/
def dvL (cs : List Char) : Nat :=
  cs.foldl (fun a c => a * 10 + (c.toNat - 48)) 0

/-- Single decimal digit as a character. -/
def digitChar : Nat → Char
  | 0 => '0' | 1 => '1' | 2 => '2' | 3 => '3' | 4 => '4'
  | 5 => '5' | 6 => '6' | 7 => '7' | 8 => '8' | 9 => '9'
  | _ => '*'

/-- Decimal digits of `n`, most significant first, prepended to `acc`;
fuel-indexed so that it reduces definitionally.  Models CPython's
decimal conversion of an `int` in `str(n)`. -/
def natDecimalGo : Nat → Nat → List Char → List Char
  | 0, _, acc => acc
  | Nat.succ f, n, acc =>
    if n < 10 then digitChar n :: acc
    else natDecimalGo f (n / 10) (digitChar (n % 10) :: acc)

/-- Python `str(n)` for a natural number. -/
def natDecimal (n : Nat) : String :=
  String.mk (natDecimalGo (n + 1) n [])

theorem digitChar_isDigit (m : Nat) (h : m < 10) : (digitChar m).isDigit = true := by
  interval_cases m <;> rfl

theorem digitChar_toNat (m : Nat) (h : m < 10) : (digitChar m).toNat - 48 = m := by
  interval_cases m <;> rfl

theorem natDecimalGo_spec (n : Nat) :
    ∀ (f : Nat) (acc : List Char), n < f →
    natDecimalGo f n acc = natDecimalGo (n + 1) n [] ++ acc := by
  induction n using Nat.strong_induction_on with
  | _ n ih =>
    intro f acc hf
    obtain ⟨f', rfl⟩ : ∃ f', f = f' + 1 :=
      ⟨f - 1, by omega⟩
    by_cases h : n < 10
    · rw [natDecimalGo, if_pos h, natDecimalGo, if_pos h]
      rfl
    · have hlt : n / 10 < n :=
        Nat.div_lt_self (by omega) (by decide)
      rw [natDecimalGo, if_neg h]
      conv_rhs => rw [natDecimalGo, if_neg h]
      rw [ih _ hlt f' _ (by omega), ih _ hlt n _ (by omega)]
      simp

theorem natDecimal_ne_nil (n : Nat) : (natDecimal n).data ≠ [] := by
  rw [natDecimal]
  show natDecimalGo (n + 1) n [] ≠ []
  rw [natDecimalGo]
  by_cases h : n < 10
  · rw [if_pos h]; simp
  · rw [if_neg h, natDecimalGo_spec _ _ _ (by
      have : n / 10 < n := Nat.div_lt_self (by omega) (by decide)
      omega)]
    simp

theorem natDecimal_all_digit (n : Nat) :
    ∀ c ∈ (natDecimal n).data, c.isDigit = true := by
  rw [natDecimal]
  show ∀ c ∈ natDecimalGo (n + 1) n [], c.isDigit = true
  induction n using Nat.strong_induction_on with
  | _ n ih =>
    rw [natDecimalGo]
    by_cases h : n < 10
    · rw [if_pos h]
      intro c hc
      rcases List.mem_singleton.mp hc with rfl
      exact digitChar_isDigit n h
    · have hlt : n / 10 < n := Nat.div_lt_self (by omega) (by decide)
      rw [if_neg h, natDecimalGo_spec _ _ _ (by omega)]
      intro c hc
      rcases List.mem_append.mp hc with hc | hc
      · exact ih _ hlt c hc
      · rcases List.mem_singleton.mp hc with rfl
        exact digitChar_isDigit _ (Nat.mod_lt n (by decide))

theorem pyIsDigit_natDecimal (n : Nat) : pyIsDigit (natDecimal n) = true := by
  have h1 := natDecimal_ne_nil n
  have h2 := natDecimal_all_digit n
  simp only [pyIsDigit, pyIsDigitL]
  rw [Bool.and_eq_true]
  constructor
  · simpa using h1
  · exact List.all_eq_true.mpr h2

theorem dvL_natDecimal (n : Nat) : dvL (natDecimal n).data = n := by
  rw [natDecimal]
  show dvL (natDecimalGo (n + 1) n []) = n
  induction n using Nat.strong_induction_on with
  | _ n ih =>
    rw [natDecimalGo]
    by_cases h : n < 10
    · rw [if_pos h]
      simp [dvL, digitChar_toNat n h]
    · have hlt : n / 10 < n := Nat.div_lt_self (by omega) (by decide)
      rw [if_neg h, natDecimalGo_spec _ _ _ (by omega)]
      simp only [dvL, List.foldl_append]
      rw [show List.foldl (fun a c => a * 10 + (c.toNat - 48)) 0
        (natDecimalGo (n / 10 + 1) (n / 10) []) = dvL (natDecimalGo (n / 10 + 1) (n / 10) []) from rfl]
      rw [ih _ hlt]
      simp [List.foldl, digitChar_toNat _ (Nat.mod_lt n (by decide))]
      omega

/-! ### The decode hook

`_json_object_hook_dict_str_key_to_int` from `nv/session.py`:
replace each digit-only string key of a mapping by its integer value.
`json.loads` applies the hook to every object, innermost first, so the
embedded decoder applies it recursively to every `dict` node. -/

/-- Key transformation performed by the object hook:
`int(k) if k.isdigit() else k`. -/
def promoteKey : PyKey → PyKey
  | .str s => if pyIsDigit s then .int (dvL s.data : Nat) else .str s
  | .int n => .int n

/-- The hook's dict comprehension: rebuild the mapping entry by entry
with promoted keys.  Entries whose promoted keys collide overwrite each
other, the later entry winning, exactly as in a Python dict. -/
def hookPairs (kvs : List (PyKey × PyVal)) : List (PyKey × PyVal) :=
  kvs.foldl (fun acc kv => upsert acc (promoteKey kv.1) kv.2) []

mutual

/-- Recursive application of the object hook to every mapping of a
decoded value, innermost first (`json.loads` with `object_hook=...`). -/
def applyHook : PyVal → PyVal
  | .dict kvs => .dict (hookPairs (hookKvs kvs))
  | .list xs => .list (hookList xs)
  | .none => .none
  | .bool b => .bool b
  | .int n => .int n
  | .str s => .str s

def hookList : List PyVal → List PyVal
  | [] => []
  | x :: xs => applyHook x :: hookList xs

def hookKvs : List (PyKey × PyVal) → List (PyKey × PyVal)
  | [] => []
  | (k, v) :: rest => (k, applyHook v) :: hookKvs rest

end

mutual

/-- Modelled from the spec's words: the decode step replaces, in every
mapping at every nesting depth, each digit-only string key by its
integer value, and passes every other key and all values through
unchanged (each entry kept, in order). -/
def specPromote : PyVal → PyVal
  | .dict kvs => .dict (specPromoteKvs kvs)
  | .list xs => .list (specPromoteList xs)
  | .none => .none
  | .bool b => .bool b
  | .int n => .int n
  | .str s => .str s

def specPromoteList : List PyVal → List PyVal
  | [] => []
  | x :: xs => specPromote x :: specPromoteList xs

def specPromoteKvs : List (PyKey × PyVal) → List (PyKey × PyVal)
  | [] => []
  | (k, v) :: rest => (promoteKey k, specPromote v) :: specPromoteKvs rest

end

/-- No two keys of the list promote to the same key. -/
def nodupKeys : List PyKey → Bool
  | [] => true
  | k :: ks => decide (k ∉ ks) && nodupKeys ks

mutual

/-- Every mapping in the value has pairwise distinct promoted keys, so
the hook's dict comprehension loses no entry. -/
def noCollision : PyVal → Bool
  | .dict kvs => nodupKeys (kvs.map (fun kv => promoteKey kv.1)) && noCollisionKvs kvs
  | .list xs => noCollisionList xs
  | .none => true
  | .bool _ => true
  | .int _ => true
  | .str _ => true

def noCollisionList : List PyVal → Bool
  | [] => true
  | x :: xs => noCollision x && noCollisionList xs

def noCollisionKvs : List (PyKey × PyVal) → Bool
  | [] => true
  | (_, v) :: rest => noCollision v && noCollisionKvs rest

end

theorem upsert_append_of_nodup {l : List (PyKey × PyVal)} {k : PyKey} {v : PyVal}
    (h : k ∉ l.map Prod.fst) :
    upsert l k v = l ++ [(k, v)] :=
  upsert_of_not_mem l k v h

theorem hookPairs_go (l : List (PyKey × PyVal)) :
    ∀ acc : List (PyKey × PyVal),
    nodupKeys (acc.map Prod.fst ++ l.map (fun kv => promoteKey kv.1)) = true →
    l.foldl (fun acc kv => upsert acc (promoteKey kv.1) kv.2) acc =
      acc ++ l.map (fun kv => (promoteKey kv.1, kv.2)) := by
  induction l with
  | nil => intro acc _; simp
  | cons kv rest ih =>
    intro acc hnd
    have hnotm : promoteKey kv.1 ∉ acc.map Prod.fst := by
      intro hmem
      induction acc with
      | nil => simp at hmem
      | cons a as iha =>
        simp only [List.map_cons, List.cons_append, nodupKeys,
          Bool.and_eq_true, decide_eq_true_eq] at hnd
        rcases List.mem_cons.mp hmem with he | hm
        · exact hnd.1 (by
            rw [← he]
            simp)
        · exact iha hnd.2 hm
    rw [List.foldl_cons, upsert_of_not_mem _ _ _ hnotm]
    rw [ih (acc ++ [(promoteKey kv.1, kv.2)]) (by
      simp only [List.map_append, List.map_cons, List.map_nil,
        List.append_assoc, List.singleton_append]
      simpa using hnd)]
    simp

theorem hookPairs_eq_map (l : List (PyKey × PyVal))
    (h : nodupKeys (l.map (fun kv => promoteKey kv.1)) = true) :
    hookPairs l = l.map (fun kv => (promoteKey kv.1, kv.2)) := by
  have := hookPairs_go l [] (by simpa using h)
  simpa [hookPairs] using this

theorem specPromoteKvs_eq_map (l : List (PyKey × PyVal)) :
    specPromoteKvs l = l.map (fun kv => (promoteKey kv.1, specPromote kv.2)) := by
  induction l with
  | nil => rfl
  | cons kv rest ih => rw [show kv = (kv.1, kv.2) from rfl, specPromoteKvs, ih]; rfl

mutual

theorem applyHook_eq_specPromote :
    ∀ v : PyVal, noCollision v = true → applyHook v = specPromote v
  | .none, _ => rfl
  | .bool b, _ => rfl
  | .int n, _ => rfl
  | .str s, _ => rfl
  | .list xs, h => by
    rw [applyHook, specPromote, hookList_eq_spec xs (by simpa [noCollision] using h)]
  | .dict kvs, h => by
    rw [noCollision, Bool.and_eq_true] at h
    rw [applyHook, specPromote, hookKvs_eq_spec kvs h.2]
    rw [hookPairs_eq_map (kvs.map (fun kv => (kv.1, specPromote kv.2)))
      (by simpa [List.map_map, Function.comp] using h.1)]
    rw [specPromoteKvs_eq_map]
    simp [List.map_map, Function.comp]

theorem hookList_eq_spec :
    ∀ xs : List PyVal, noCollisionList xs = true → hookList xs = specPromoteList xs
  | [], _ => rfl
  | x :: xs, h => by
    rw [noCollisionList, Bool.and_eq_true] at h
    rw [hookList, specPromoteList, applyHook_eq_specPromote x h.1,
      hookList_eq_spec xs h.2]

theorem hookKvs_eq_spec :
    ∀ l : List (PyKey × PyVal), noCollisionKvs l = true →
      hookKvs l = l.map (fun kv => (kv.1, specPromote kv.2))
  | [], _ => rfl
  | (k, v) :: rest, h => by
    rw [noCollisionKvs, Bool.and_eq_true] at h
    rw [hookKvs, applyHook_eq_specPromote v h.1, hookKvs_eq_spec rest h.2]
    rfl

end

/-! ### The encode step

`json.dumps` turns every dictionary key into a JSON string: an integer
key is written as its decimal representation.  `encodeVal` models this
key stringification on the value tree. -/

/-- The string `json.dumps` writes for a dictionary key. -/
def encodeKey : PyKey → String
  | .int n => if n < 0 then "-" ++ natDecimal n.natAbs else natDecimal n.natAbs
  | .str s => s

mutual

/-- Tree-level effect of `json.dumps` followed by a plain `json.loads`
without the hook: every mapping key becomes its key string. -/
def encodeVal : PyVal → PyVal
  | .dict kvs => .dict (encodeKvs kvs)
  | .list xs => .list (encodeList xs)
  | .none => .none
  | .bool b => .bool b
  | .int n => .int n
  | .str s => .str s

def encodeList : List PyVal → List PyVal
  | [] => []
  | x :: xs => encodeVal x :: encodeList xs

def encodeKvs : List (PyKey × PyVal) → List (PyKey × PyVal)
  | [] => []
  | (k, v) :: rest => (.str (encodeKey k), encodeVal v) :: encodeKvs rest

end

/-- A key survives encode-then-decode unchanged: a nonnegative integer,
or a string that is not made of digits only. -/
def stableKey : PyKey → Bool
  | .int n => decide (0 ≤ n)
  | .str s => !pyIsDigit s

mutual

/-- Every mapping in the value has pairwise distinct keys (the Python
dict invariant) and only stable keys, at every nesting depth. -/
def stableVal : PyVal → Bool
  | .dict kvs => nodupKeys (kvs.map Prod.fst) && stableKvs kvs
  | .list xs => stableList xs
  | .none => true
  | .bool _ => true
  | .int _ => true
  | .str _ => true

def stableList : List PyVal → Bool
  | [] => true
  | x :: xs => stableVal x && stableList xs

def stableKvs : List (PyKey × PyVal) → Bool
  | [] => true
  | (k, v) :: rest => stableKey k && stableVal v && stableKvs rest

end

theorem promoteKey_encodeKey (k : PyKey) (h : stableKey k = true) :
    promoteKey (.str (encodeKey k)) = k := by
  cases k with
  | int n =>
    rw [stableKey, decide_eq_true_eq] at h
    rw [encodeKey, if_neg (not_lt.mpr h), promoteKey,
      if_pos (pyIsDigit_natDecimal _), dvL_natDecimal]
    rw [Int.natAbs_of_nonneg h]
  | str s =>
    rw [stableKey, Bool.not_eq_true'] at h
    rw [encodeKey, promoteKey, if_neg (by simp [h])]

theorem stableKvs_key_of_mem {l : List (PyKey × PyVal)} (h : stableKvs l = true) :
    ∀ kv ∈ l, stableKey kv.1 = true := by
  induction l with
  | nil => intro kv hkv; simp at hkv
  | cons a rest ih =>
    rw [show a = (a.1, a.2) from rfl, stableKvs, Bool.and_eq_true, Bool.and_eq_true] at h
    intro kv hkv
    rcases List.mem_cons.mp hkv with rfl | hkv
    · exact h.1.1
    · exact ih h.2 kv hkv

theorem map_promEnc_keys (l : List (PyKey × PyVal))
    (h : ∀ kv ∈ l, stableKey kv.1 = true) :
    (l.map (fun kv => (PyKey.str (encodeKey kv.1), kv.2))).map
        (fun kv => promoteKey kv.1) = l.map Prod.fst := by
  induction l with
  | nil => rfl
  | cons a rest ih =>
    simp only [List.map_cons]
    rw [promoteKey_encodeKey a.1 (h a (List.mem_cons_self a rest)),
      ih (fun kv hkv => h kv (List.mem_cons_of_mem a hkv))]

theorem map_promEnc_id (l : List (PyKey × PyVal))
    (h : ∀ kv ∈ l, stableKey kv.1 = true) :
    (l.map (fun kv => (PyKey.str (encodeKey kv.1), kv.2))).map
        (fun kv => (promoteKey kv.1, kv.2)) = l := by
  induction l with
  | nil => rfl
  | cons a rest ih =>
    simp only [List.map_cons]
    rw [promoteKey_encodeKey a.1 (h a (List.mem_cons_self a rest)),
      ih (fun kv hkv => h kv (List.mem_cons_of_mem a hkv))]

mutual

theorem encode_roundtrip :
    ∀ v : PyVal, stableVal v = true → applyHook (encodeVal v) = v
  | .none, _ => rfl
  | .bool b, _ => rfl
  | .int n, _ => rfl
  | .str s, _ => rfl
  | .list xs, h => by
    rw [encodeVal, applyHook,
      encode_roundtrip_list xs (by simpa [stableVal] using h)]
  | .dict kvs, h => by
    rw [stableVal, Bool.and_eq_true] at h
    rw [encodeVal, applyHook, encode_roundtrip_kvs kvs h.2]
    have hkeys := stableKvs_key_of_mem h.2
    rw [hookPairs_eq_map _ (by rw [map_promEnc_keys kvs hkeys]; exact h.1)]
    rw [map_promEnc_id kvs hkeys]

theorem encode_roundtrip_list :
    ∀ xs : List PyVal, stableList xs = true → hookList (encodeList xs) = xs
  | [], _ => rfl
  | x :: xs, h => by
    rw [stableList, Bool.and_eq_true] at h
    rw [encodeList, hookList, encode_roundtrip x h.1, encode_roundtrip_list xs h.2]

theorem encode_roundtrip_kvs :
    ∀ l : List (PyKey × PyVal), stableKvs l = true →
      hookKvs (encodeKvs l) = l.map (fun kv => (PyKey.str (encodeKey kv.1), kv.2))
  | [], _ => rfl
  | (k, v) :: rest, h => by
    rw [stableKvs, Bool.and_eq_true, Bool.and_eq_true] at h
    rw [encodeKvs, hookKvs, encode_roundtrip v h.1.2, encode_roundtrip_kvs rest h.2]
    rfl

end

/-! ### JSON text layer

A concrete recursive-descent parser for the `json.loads` call and a
printer for the `json.dumps` call.  The model is restricted to the data
the session file can hold: numbers are integer literals (no fraction or
exponent part), `NaN`/`Infinity` extensions are rejected, and `\u`
escapes outside the basic plane are out of model.  Objects collapse
duplicate keys with the later entry winning, as Python's decoder does. -/

def lbrace : Char := Char.ofNat 123

def rbrace : Char := Char.ofNat 125

/-- JSON insignificant whitespace. -/
def skipWs : List Char → List Char
  | c :: cs => if c = ' ' || c = '\t' || c = '\n' || c = '\r' then skipWs cs else c :: cs
  | [] => []

def hexVal (c : Char) : Option Nat :=
  if c.isDigit then some (c.toNat - 48)
  else if 'a' ≤ c && c ≤ 'f' then some (c.toNat - 87)
  else if 'A' ≤ c && c ≤ 'F' then some (c.toNat - 55)
  else Option.none

/-- Body of a JSON string literal, after the opening quote. -/
def parseStringAux (acc : List Char) : List Char → Except Unit (String × List Char)
  | [] => .error ()
  | c :: rest =>
    if c = '"' then .ok (String.mk acc.reverse, rest)
    else if c = '\\' then
      match rest with
      | [] => .error ()
      | e :: r2 =>
        if e = '"' then parseStringAux ('"' :: acc) r2
        else if e = '\\' then parseStringAux ('\\' :: acc) r2
        else if e = '/' then parseStringAux ('/' :: acc) r2
        else if e = 'n' then parseStringAux ('\n' :: acc) r2
        else if e = 't' then parseStringAux ('\t' :: acc) r2
        else if e = 'r' then parseStringAux ('\r' :: acc) r2
        else if e = 'b' then parseStringAux (Char.ofNat 8 :: acc) r2
        else if e = 'f' then parseStringAux (Char.ofNat 12 :: acc) r2
        else if e = 'u' then
          match r2 with
          | a :: b :: c2 :: d :: r3 =>
            match hexVal a, hexVal b, hexVal c2, hexVal d with
            | some ha, some hb, some hc, some hd =>
              parseStringAux (Char.ofNat (((ha * 16 + hb) * 16 + hc) * 16 + hd) :: acc) r3
            | _, _, _, _ => .error ()
          | _ => .error ()
        else .error ()
    else parseStringAux (c :: acc) rest

def takeDigits : List Char → Nat → Nat × List Char
  | c :: cs, acc =>
    if c.isDigit then takeDigits cs (acc * 10 + (c.toNat - 48)) else (acc, c :: cs)
  | [], acc => (acc, [])

/-- JSON natural-number literal: `0`, or a nonzero digit then digits. -/
def parseNat : List Char → Except Unit (Nat × List Char)
  | [] => .error ()
  | c :: cs =>
    if c = '0' then .ok (0, cs)
    else if c.isDigit then .ok (takeDigits cs (c.toNat - 48))
    else .error ()

def parseNumber (cs : List Char) : Except Unit (PyVal × List Char) :=
  match cs with
  | '-' :: rest =>
    match parseNat rest with
    | .ok (n, r) => .ok (.int (-(n : Int)), r)
    | .error e => .error e
  | _ =>
    match parseNat cs with
    | .ok (n, r) => .ok (.int (n : Int), r)
    | .error e => .error e

mutual

/-- One JSON value, leading whitespace allowed; fuel-indexed. -/
def parseValue : Nat → List Char → Except Unit (PyVal × List Char)
  | 0, _ => .error ()
  | Nat.succ f, cs =>
    match skipWs cs with
    | [] => .error ()
    | c :: rest =>
      if c = lbrace then
        match skipWs rest with
        | c2 :: r2 => if c2 = rbrace then .ok (.dict [], r2) else parseMembers f (c2 :: r2) []
        | [] => .error ()
      else if c = '[' then
        match skipWs rest with
        | c2 :: r2 => if c2 = ']' then .ok (.list [], r2) else parseElems f (c2 :: r2) []
        | [] => .error ()
      else if c = '"' then
        match parseStringAux [] rest with
        | .ok (s, r2) => .ok (.str s, r2)
        | .error e => .error e
      else if c = 't' then
        match rest with
        | 'r' :: 'u' :: 'e' :: r2 => .ok (.bool true, r2)
        | _ => .error ()
      else if c = 'f' then
        match rest with
        | 'a' :: 'l' :: 's' :: 'e' :: r2 => .ok (.bool false, r2)
        | _ => .error ()
      else if c = 'n' then
        match rest with
        | 'u' :: 'l' :: 'l' :: r2 => .ok (.none, r2)
        | _ => .error ()
      else parseNumber (c :: rest)

/-- Members of a JSON object, after at least one is known to follow. -/
def parseMembers : Nat → List Char → List (PyKey × PyVal) → Except Unit (PyVal × List Char)
  | 0, _, _ => .error ()
  | Nat.succ f, cs, acc =>
    match skipWs cs with
    | c :: rest =>
      if c = '"' then
        match parseStringAux [] rest with
        | .error e => .error e
        | .ok (key, r2) =>
          match skipWs r2 with
          | ':' :: r3 =>
            match parseValue f r3 with
            | .error e => .error e
            | .ok (v, r4) =>
              match skipWs r4 with
              | ',' :: r5 => parseMembers f r5 (upsert acc (.str key) v)
              | c5 :: r5 =>
                if c5 = rbrace then .ok (.dict (upsert acc (.str key) v), r5)
                else .error ()
              | [] => .error ()
          | _ => .error ()
      else .error ()
    | [] => .error ()

/-- Elements of a JSON array, after at least one is known to follow. -/
def parseElems : Nat → List Char → List PyVal → Except Unit (PyVal × List Char)
  | 0, _, _ => .error ()
  | Nat.succ f, cs, acc =>
    match parseValue f cs with
    | .error e => .error e
    | .ok (v, r) =>
      match skipWs r with
      | ',' :: r2 => parseElems f r2 (acc ++ [v])
      | c2 :: r2 => if c2 = ']' then .ok (.list (acc ++ [v]), r2) else .error ()
      | [] => .error ()

end

/-- Model of `json.loads` (without the object hook): parse one value and
require only whitespace after it. -/
def jsonParse (content : String) : Except Unit PyVal :=
  match parseValue (2 * content.length + 2) content.data with
  | .error _ => .error ()
  | .ok (v, rest) => if skipWs rest = [] then .ok v else .error ()

/-- Model of `json.loads(content, object_hook=_json_object_hook_dict_str_key_to_int)`. -/
def json_loads_hooked (content : String) : Except Unit PyVal :=
  match jsonParse content with
  | .ok v => .ok (applyHook v)
  | .error e => .error e

def hexDigit : Nat → Char
  | 10 => 'a' | 11 => 'b' | 12 => 'c' | 13 => 'd' | 14 => 'e' | 15 => 'f'
  | n => digitChar n

def hex4 (n : Nat) : String :=
  String.mk [hexDigit (n / 4096 % 16), hexDigit (n / 256 % 16),
    hexDigit (n / 16 % 16), hexDigit (n % 16)]

/-- `json.dumps` escaping with the default `ensure_ascii=True`: printable
ASCII passes through, everything else is escaped. -/
def escapeChar (c : Char) : String :=
  if c = '"' then "\\\""
  else if c = '\\' then "\\\\"
  else if c = '\n' then "\\n"
  else if c = '\t' then "\\t"
  else if c = '\r' then "\\r"
  else if c = Char.ofNat 8 then "\\b"
  else if c = Char.ofNat 12 then "\\f"
  else if c.toNat < 32 || 126 < c.toNat then "\\u" ++ hex4 c.toNat
  else String.singleton c

/-- A JSON string literal for `s`, quotes included. -/
def escapeString (s : String) : String :=
  "\"" ++ String.join (s.data.map escapeChar) ++ "\""

mutual

/-- Model of `json.dumps` with its default separators. -/
def json_dumps_val : PyVal → String
  | .none => "null"
  | .bool true => "true"
  | .bool false => "false"
  | .int n => encodeKey (.int n)
  | .str s => escapeString s
  | .list xs => "[" ++ dumpsList xs ++ "]"
  | .dict kvs => "\x7b" ++ dumpsKvs kvs ++ "\x7d"

def dumpsList : List PyVal → String
  | [] => ""
  | [x] => json_dumps_val x
  | x :: xs => json_dumps_val x ++ ", " ++ dumpsList xs

def dumpsKvs : List (PyKey × PyVal) → String
  | [] => ""
  | [(k, v)] => escapeString (encodeKey k) ++ ": " ++ json_dumps_val v
  | (k, v) :: rest =>
    escapeString (encodeKey k) ++ ": " ++ json_dumps_val v ++ ", " ++ dumpsKvs rest

end

def json_dumps (v : PyVal) : String := json_dumps_val v

/-! ### The session module state and operations

`nv/session.py` keeps three module-level objects: `_session` (a dict from
name to value), the history subsystem's `_storage` (a dict from integer
index to value, cleared and repopulated by `load_session`), and `_views`
(a `defaultdict(dict)` from view id to a dict of per-view values).  The
durable file is modelled as `Option String`: `Option.none` is a missing
file, `some c` a file with content `c`. -/

abbrev GlobalStore := List (String × PyVal)

abbrev HistoryStore := List (Int × PyVal)

abbrev ViewMap := List (String × PyVal)

abbrev Views := List (Int × ViewMap)

/-- The state `load_session` reads and mutates: `_session` together with
the history subsystem's `_storage`. -/
structure SessionState where
  session : GlobalStore
  history : HistoryStore

/-- The Python exceptions the module's control flow distinguishes. -/
inductive PyExc where
  | fileNotFound
  | valueError
  | attributeError
deriving DecidableEq, Repr

/-- `_session` as the Python dict handed to `json.dumps`. -/
def storeVal (sess : GlobalStore) : PyVal :=
  .dict (sess.map (fun kv => (PyKey.str kv.1, kv.2)))

/-- `save_session()`: the content written to the session file,
`json.dumps(_session)`. -/
def save_session (sess : GlobalStore) : String :=
  json_dumps (storeVal sess)

/-- `save_session()` as a file effect: the file is opened with mode `w`
(truncate) and the full serialization is written, so the new content is
independent of the old. -/
def save_session_write (sess : GlobalStore) (_oldFile : Option String) : Option String :=
  some (save_session sess)

/-- `get_session_value(name, default)`. -/
def get_session_value (sess : GlobalStore) (name : String) (default : PyVal) : PyVal :=
  match alookup sess name with
  | some v => v
  | Option.none => default

/-- `set_session_value(name, value, persist)`: mutate `_session`, and
call `save_session()` when `persist` is set and the build is older than
4081.  Returns the new store and the new file content. -/
def set_session_value (bv : Int) (sess : GlobalStore) (file : Option String)
    (name : String) (value : PyVal) (persist : Bool) : GlobalStore × Option String :=
  let sess' := upsert sess name value
  if persist && decide (bv < 4081) then (sess', save_session_write sess' file)
  else (sess', file)

/-- `session_on_exit()`: defined as `save_session()` for builds at least
4081 and as `pass` otherwise.  Returns the (unchanged) store and the new
file content. -/
def session_on_exit (bv : Int) (sess : GlobalStore) (file : Option String) :
    GlobalStore × Option String :=
  if 4081 ≤ bv then (sess, save_session_write sess file) else (sess, file)

/-- `_views[viewId]` on the `defaultdict(dict)`: looking up a missing key
inserts a fresh empty dict and returns it. -/
def dd_getitem (views : Views) (viewId : Int) : ViewMap × Views :=
  match alookup views viewId with
  | some m => (m, views)
  | Option.none => ([], views ++ [(viewId, [])])

/-- `get_session_view_value(view, name, default)`: note that the
`_views[view.id()]` subscript runs on the defaultdict before the inner
lookup can raise `KeyError`. -/
def get_session_view_value (views : Views) (viewId : Int) (name : String)
    (default : PyVal) : PyVal × Views :=
  let p := dd_getitem views viewId
  match alookup p.1 name with
  | some v => (v, p.2)
  | Option.none => (default, p.2)

/-- `set_session_view_value(view, name, value)`. -/
def set_session_view_value (views : Views) (viewId : Int) (name : String)
    (value : PyVal) : Views :=
  let p := dd_getitem views viewId
  upsert p.2 viewId (upsert p.1 name value)

/-- Remove the first (and, for a dict, only) binding of a key. -/
def eraseFirst : Views → Int → Views
  | [], _ => []
  | kv :: rest, d => if kv.1 = d then rest else kv :: eraseFirst rest d

/-- `session_on_close(view)`: `del _views[view.id()]` inside
`try ... except KeyError: pass`. -/
def session_on_close (views : Views) (viewId : Int) : Views :=
  if viewId ∈ views.map Prod.fst then eraseFirst views viewId else views

/-- Python truthiness of the decoded value (`if session:`). -/
def pyTruthy : PyVal → Bool
  | .none => false
  | .bool b => b
  | .int n => decide (n ≠ 0)
  | .str s => !s.isEmpty
  | .list xs => !xs.isEmpty
  | .dict kvs => !kvs.isEmpty

/-- Python `int(s)` for a string: optional surrounding whitespace, an
optional sign, then decimal digits. -/
def pyIntOfStr (s : String) : Except Unit Int :=
  let t := s.trim
  if pyIsDigit t then .ok ((dvL t.data : Nat) : Int)
  else if t.startsWith "-" && pyIsDigit (t.drop 1) then
    .ok (-((dvL (t.drop 1).data : Nat) : Int))
  else if t.startsWith "+" && pyIsDigit (t.drop 1) then
    .ok ((dvL (t.drop 1).data : Nat) : Int)
  else .error ()

/-- Python `int(k)` for a decoded mapping key (`int` of an `int` is the
identity; `int` of a non-numeric string raises `ValueError`). -/
def pyIntOfKey : PyKey → Except Unit Int
  | .int n => .ok n
  | .str s => pyIntOfStr s

def excOK : Except Unit Int → Bool
  | .ok _ => true
  | .error _ => false

/-- Total version of `pyIntOfKey`, meaningful on keys where it succeeds. -/
def intOfKeyD (k : PyKey) : Int :=
  match pyIntOfKey k with
  | .ok n => n
  | .error _ => 0

/-- The allow-list `accept_keys` of `load_session`. -/
def acceptKeys : List String :=
  ["history", "ex_substitute_last_pattern", "ex_substitute_last_replacement",
    "last_used_register_name", "macros"]

/-- The repopulation loop `for _k, _v in v.items(): _storage[int(_k)] = _v`.
An entry whose key `int()` rejects raises `ValueError`, leaving the
partially repopulated state behind. -/
def historyLoop : List (PyKey × PyVal) → SessionState →
    Except (PyExc × SessionState) SessionState
  | [], st => .ok st
  | (k, v) :: rest, st =>
    match pyIntOfKey k with
    | .error _ => .error (.valueError, st)
    | .ok n => historyLoop rest { st with history := upsert st.history n v }

/-- The `history` sub-block of the distribution loop:
`_storage.clear()` followed by the repopulation loop over `v.items()`;
a non-mapping value raises `AttributeError` after the clear. -/
def loadHistory (v : PyVal) (st : SessionState) :
    Except (PyExc × SessionState) SessionState :=
  match v with
  | .dict hkvs => historyLoop hkvs { st with history := [] }
  | _ => .error (.attributeError, { st with history := [] })

/-- The distribution loop of `load_session` over the decoded top-level
items: skip names outside `accept_keys`; for `history`, clear the
history storage and repopulate it; copy every other accepted name into
`_session`. -/
def loadLoop : List (PyKey × PyVal) → SessionState →
    Except (PyExc × SessionState) SessionState
  | [], st => .ok st
  | (k, v) :: rest, st =>
    match k with
    | .int _ => loadLoop rest st
    | .str s =>
      if s ∈ acceptKeys then
        if s = "history" then
          match loadHistory v st with
          | .ok st2 => loadLoop rest st2
          | .error e => .error e
        else loadLoop rest { st with session := upsert st.session s v }
      else loadLoop rest st

/-- Python whitespace for `str.strip()`. -/
def isPySpace (c : Char) : Bool :=
  c = ' ' || c = '\t' || c = '\n' || c = '\r' || c = Char.ofNat 11 || c = Char.ofNat 12

def stripLeft : List Char → List Char
  | c :: cs => if isPySpace c then stripLeft cs else c :: cs
  | [] => []

/-- Truthiness of `content.strip()`: the stripped string is empty iff
every character is whitespace iff the left-strip alone is empty. -/
def stripIsEmpty (s : String) : Bool :=
  (stripLeft s.data).isEmpty

/-- The body of `load_session()` up to its `except` clauses: open and
read the file, check `content.strip()`, decode with the hook, check
truthiness, and distribute.  An error carries the state mutated so far. -/
def load_session_body (file : Option String) (st : SessionState) :
    Except (PyExc × SessionState) SessionState :=
  match file with
  | Option.none => .error (.fileNotFound, st)
  | some content =>
    if stripIsEmpty content then .ok st
    else
      match json_loads_hooked content with
      | .error _ => .error (.valueError, st)
      | .ok session =>
        if pyTruthy session then
          match session with
          | .dict kvs => loadLoop kvs st
          | _ => .error (.attributeError, st)
        else .ok st

/-- `load_session()`: the body with its catch-all `except` clauses, which
swallow `FileNotFoundError` silently and print a traceback for anything
else; either way the function returns normally with the state reached. -/
def load_session (file : Option String) (st : SessionState) : SessionState :=
  match load_session_body file st with
  | .ok st' => st'
  | .error (_, st') => st'

/-! ### Characterizing the load distribution -/

/-- Folding history entries into a storage, keys through `int(...)`. -/
def histFoldFrom (h : HistoryStore) (hkvs : List (PyKey × PyVal)) : HistoryStore :=
  hkvs.foldl (fun h kv => upsert h (intOfKeyD kv.1) kv.2) h

/-- Modelled from the spec's words: the history storage is cleared and
repopulated entry by entry from the decoded sub-mapping, with each
sub-key converted to an integer. -/
def histSpec (hkvs : List (PyKey × PyVal)) : HistoryStore :=
  histFoldFrom [] hkvs

/-- The value under the `history` name is a mapping all of whose keys
`int(...)` accepts. -/
def histValOK : PyVal → Bool
  | .dict hkvs => hkvs.all (fun kv => excOK (pyIntOfKey kv.1))
  | _ => false

def entryOK (k : PyKey) (v : PyVal) : Bool :=
  if k = PyKey.str "history" then histValOK v else true

/-- Well-formed decoded record: distinct top-level keys, and a
well-formed mapping under `history` if that name is present. -/
def wfRecord : List (PyKey × PyVal) → Bool
  | [] => true
  | (k, v) :: rest => (decide (k ∉ rest.map Prod.fst) && entryOK k v) && wfRecord rest

theorem historyLoop_spec (hkvs : List (PyKey × PyVal)) :
    ∀ st : SessionState, (hkvs.all fun kv => excOK (pyIntOfKey kv.1)) = true →
    historyLoop hkvs st = .ok ⟨st.session, histFoldFrom st.history hkvs⟩ := by
  induction hkvs with
  | nil => intro st _; rfl
  | cons kv rest ih =>
    intro st hall
    obtain ⟨k, v⟩ := kv
    simp only [List.all_cons, Bool.and_eq_true] at hall
    cases hpk : pyIntOfKey k with
    | error e => exact absurd hall.1 (by simp [excOK, hpk])
    | ok n =>
      have hkd : intOfKeyD k = n := by rw [intOfKeyD, hpk]
      rw [historyLoop, hpk]
      show historyLoop rest { st with history := upsert st.history n v } =
        Except.ok ⟨st.session, histFoldFrom st.history ((k, v) :: rest)⟩
      rw [ih _ hall.2]
      simp only [histFoldFrom, List.foldl_cons, hkd]

theorem loadLoop_spec : ∀ (kvs : List (PyKey × PyVal)) (st : SessionState),
    wfRecord kvs = true →
    ∃ st' : SessionState, loadLoop kvs st = .ok st'
      ∧ (∀ s : String, PyKey.str s ∉ kvs.map Prod.fst →
          alookup st'.session s = alookup st.session s)
      ∧ (∀ s : String, s ∉ acceptKeys →
          alookup st'.session s = alookup st.session s)
      ∧ (∀ (s : String) (v : PyVal), (PyKey.str s, v) ∈ kvs → s ∈ acceptKeys →
          s ≠ "history" → alookup st'.session s = some v)
      ∧ (∀ hkvs : List (PyKey × PyVal), (PyKey.str "history", PyVal.dict hkvs) ∈ kvs →
          st'.history = histSpec hkvs)
      ∧ (PyKey.str "history" ∉ kvs.map Prod.fst → st'.history = st.history) := by
  intro kvs
  induction kvs with
  | nil =>
    intro st _
    exact ⟨st, rfl, fun _ _ => rfl, fun _ _ => rfl,
      fun s v hm => absurd hm (List.not_mem_nil _),
      fun hkvs hm => absurd hm (List.not_mem_nil _), fun _ => rfl⟩
  | cons kv rest ih =>
    intro st hwf
    obtain ⟨k, v⟩ := kv
    rw [wfRecord, Bool.and_eq_true, Bool.and_eq_true, decide_eq_true_eq] at hwf
    obtain ⟨⟨hnotin, hok⟩, hrest⟩ := hwf
    cases k with
    | int n =>
      obtain ⟨st', hrun, p1, p2, p3, p4, p5⟩ := ih st hrest
      refine ⟨st', by rw [loadLoop]; exact hrun, ?_, p2, ?_, ?_, ?_⟩
      · intro s hs
        exact p1 s (fun hm => hs (by simp only [List.map_cons]; exact List.mem_cons_of_mem _ hm))
      · intro s v' hm hacc hnh
        rcases List.mem_cons.mp hm with he | hm
        · exact absurd (congrArg Prod.fst he) (by simp)
        · exact p3 s v' hm hacc hnh
      · intro hkvs hm
        rcases List.mem_cons.mp hm with he | hm
        · exact absurd (congrArg Prod.fst he) (by simp)
        · exact p4 hkvs hm
      · intro hs
        exact p5 (fun hm => hs (by simp only [List.map_cons]; exact List.mem_cons_of_mem _ hm))
    | str s0 =>
      by_cases hacc0 : s0 ∈ acceptKeys
      · by_cases hh : s0 = "history"
        · subst hh
          have hvok : histValOK v = true := by
            have h2 := hok
            rw [entryOK, if_pos rfl] at h2
            exact h2
          cases v with
          | dict hkvs0 =>
            have hrun0 := historyLoop_spec hkvs0 ⟨st.session, []⟩ (by
              rw [histValOK] at hvok
              exact hvok)
            obtain ⟨st', hrun, p1, p2, p3, p4, p5⟩ :=
              ih ⟨st.session, histFoldFrom [] hkvs0⟩ hrest
            refine ⟨st', ?_, ?_, p2, ?_, ?_, ?_⟩
            · rw [loadLoop]
              simp only [if_pos hacc0, if_pos rfl, loadHistory]
              rw [hrun0]
              exact hrun
            · intro s hs
              exact p1 s (fun hm => hs (by
                simp only [List.map_cons]; exact List.mem_cons_of_mem _ hm))
            · intro s v' hm hacc hnh
              rcases List.mem_cons.mp hm with he | hm
              · exact absurd (PyKey.str.inj (congrArg Prod.fst he)) hnh
              · exact p3 s v' hm hacc hnh
            · intro hkvs hm
              rcases List.mem_cons.mp hm with he | hm
              · have hks : hkvs = hkvs0 := PyVal.dict.inj (congrArg Prod.snd he)
                subst hks
                rw [p5 hnotin]
                rfl
              · exact absurd (List.mem_map_of_mem Prod.fst hm) hnotin
            · intro hs
              exact absurd (by simp) hs
          | none => exact absurd hvok (by simp [histValOK])
          | bool b => exact absurd hvok (by simp [histValOK])
          | int n => exact absurd hvok (by simp [histValOK])
          | str s => exact absurd hvok (by simp [histValOK])
          | list xs => exact absurd hvok (by simp [histValOK])
        · obtain ⟨st', hrun, p1, p2, p3, p4, p5⟩ :=
            ih ⟨upsert st.session s0 v, st.history⟩ hrest
          refine ⟨st', ?_, ?_, ?_, ?_, ?_, ?_⟩
          · rw [loadLoop]
            simp only [if_pos hacc0, if_neg hh]
            exact hrun
          · intro s hs
            have hne : s ≠ s0 := fun he => hs (by simp [he])
            have h2 : PyKey.str s ∉ rest.map Prod.fst := fun hm => hs (by
              simp only [List.map_cons]; exact List.mem_cons_of_mem _ hm)
            rw [p1 s h2]
            exact alookup_upsert_ne st.session s0 s v hne
          · intro s hs
            have hne : s ≠ s0 := fun he => hs (he ▸ hacc0)
            rw [p2 s hs]
            exact alookup_upsert_ne st.session s0 s v hne
          · intro s v' hm hacc hnh
            rcases List.mem_cons.mp hm with he | hm
            · have hs : s = s0 := PyKey.str.inj (congrArg Prod.fst he)
              have hv : v' = v := congrArg Prod.snd he
              subst hs
              subst hv
              rw [p1 s (fun hm2 => hnotin hm2)]
              exact alookup_upsert_self st.session s v'
            · exact p3 s v' hm hacc hnh
          · intro hkvs hm
            rcases List.mem_cons.mp hm with he | hm
            · exact absurd (PyKey.str.inj (congrArg Prod.fst he)).symm hh
            · exact p4 hkvs hm
          · intro hs
            have h2 : PyKey.str "history" ∉ rest.map Prod.fst := fun hm => hs (by
              simp only [List.map_cons]; exact List.mem_cons_of_mem _ hm)
            exact p5 h2
      · obtain ⟨st', hrun, p1, p2, p3, p4, p5⟩ := ih st hrest
        refine ⟨st', ?_, ?_, p2, ?_, ?_, ?_⟩
        · rw [loadLoop]
          simp only [if_neg hacc0]
          exact hrun
        · intro s hs
          exact p1 s (fun hm => hs (by
            simp only [List.map_cons]; exact List.mem_cons_of_mem _ hm))
        · intro s v' hm hacc hnh
          rcases List.mem_cons.mp hm with he | hm
          · have hs : s = s0 := PyKey.str.inj (congrArg Prod.fst he)
            exact absurd (hs ▸ hacc) hacc0
          · exact p3 s v' hm hacc hnh
        · intro hkvs hm
          rcases List.mem_cons.mp hm with he | hm
          · have hs : ("history" : String) = s0 := PyKey.str.inj (congrArg Prod.fst he)
            exact absurd (hs ▸ (by simp [acceptKeys] : ("history" : String) ∈ acceptKeys)) hacc0
          · exact p4 hkvs hm
        · intro hs
          exact p5 (fun hm => hs (by
            simp only [List.map_cons]; exact List.mem_cons_of_mem _ hm))

/-! ### Remaining helper lemmas -/

theorem alookup_eq_none_iff {α β : Type} [DecidableEq α] (l : List (α × β)) (k : α) :
    alookup l k = Option.none ↔ k ∉ l.map Prod.fst := by
  induction l with
  | nil => simp [alookup]
  | cons kv rest ih =>
    by_cases hk : kv.1 = k
    · simp [alookup, hk]
    · simp [alookup, hk, ih, Ne.symm hk]

theorem eraseFirst_of_not_mem (views : Views) (k : Int)
    (h : k ∉ views.map Prod.fst) :
    eraseFirst views k = views := by
  induction views with
  | nil => rfl
  | cons kv rest ih =>
    simp only [List.map_cons, List.mem_cons] at h
    push_neg at h
    rw [eraseFirst, if_neg (fun e => h.1 e.symm), ih h.2]

theorem not_mem_eraseFirst (views : Views) (k : Int)
    (h : (views.map Prod.fst).Nodup) :
    k ∉ (eraseFirst views k).map Prod.fst := by
  induction views with
  | nil => simp [eraseFirst]
  | cons kv rest ih =>
    rw [List.map_cons, List.nodup_cons] at h
    by_cases hk : kv.1 = k
    · rw [eraseFirst, if_pos hk]
      exact hk ▸ h.1
    · rw [eraseFirst, if_neg hk, List.map_cons]
      intro hm
      rcases List.mem_cons.mp hm with he | hm2
      · exact hk he.symm
      · exact ih h.2 hm2

theorem str_data_append (a b : String) : (a ++ b).data = a.data ++ b.data := by
  cases a; cases b; rfl

theorem dumpsKvs_infix (l : List (PyKey × PyVal)) (k : PyKey) (v : PyVal)
    (h : (k, v) ∈ l) :
    ∃ pre post : List Char,
      (dumpsKvs l).data =
        pre ++ (escapeString (encodeKey k) ++ ": " ++ json_dumps_val v).data ++ post := by
  induction l with
  | nil => simp at h
  | cons kv rest ih =>
    cases rest with
    | nil =>
      rcases List.mem_singleton.mp h with rfl
      refine ⟨[], [], ?_⟩
      rw [show dumpsKvs [(k, v)] =
        escapeString (encodeKey k) ++ ": " ++ json_dumps_val v from rfl]
      simp [str_data_append]
    | cons r rs =>
      rcases List.mem_cons.mp h with he | hm
      · rw [← he]
        refine ⟨[], (", " ++ dumpsKvs (r :: rs)).data, ?_⟩
        rw [show dumpsKvs ((k, v) :: r :: rs) =
          escapeString (encodeKey k) ++ ": " ++ json_dumps_val v ++ ", " ++
            dumpsKvs (r :: rs) from rfl]
        simp [str_data_append]
      · obtain ⟨pre, post, heq⟩ := ih hm
        obtain ⟨k0, v0⟩ := kv
        refine ⟨(escapeString (encodeKey k0) ++ ": " ++ json_dumps_val v0 ++ ", ").data
          ++ pre, post, ?_⟩
        rw [show dumpsKvs ((k0, v0) :: r :: rs) =
          escapeString (encodeKey k0) ++ ": " ++ json_dumps_val v0 ++ ", " ++
            dumpsKvs (r :: rs) from rfl]
        simp [str_data_append, heq]

/-! ### The claims -/

/-- C1 is false as stated: on the empty document store, reading a value
for document 7 returns the caller-supplied default but leaves behind an
entry for document 7 (the `defaultdict` inserts an empty mapping on
lookup), so a read does create a per-document entry. -/
theorem get_session_view_value_read_creates_entry_cex :
    (get_session_view_value [] 7 "k" (PyVal.str "d")).1 = PyVal.str "d" ∧
    (get_session_view_value [] 7 "k" (PyVal.str "d")).2 = [(7, [])] :=
  ⟨rfl, rfl⟩

/-- C1 (amended): reading a per-document value for a document with no
entry returns the caller-supplied default, but — because `_views` is a
`defaultdict(dict)` — the read inserts an empty entry for that document;
name/value pairs are only ever added by `set_session_view_value`. -/
theorem get_session_view_value_default_and_creates_entry
    (views : Views) (viewId : Int) (name : String) (default : PyVal)
    (h : alookup views viewId = Option.none) :
    (get_session_view_value views viewId name default).1 = default ∧
    (get_session_view_value views viewId name default).2 = views ++ [(viewId, [])] := by
  unfold get_session_view_value dd_getitem
  rw [h]
  exact ⟨rfl, rfl⟩

/-- Witness for the amended C1 at a concrete input. -/
theorem get_session_view_value_default_and_creates_entry_witness :
    alookup ([] : Views) 7 = Option.none ∧
    (get_session_view_value [] 7 "k" (PyVal.str "d")).1 = PyVal.str "d" ∧
    (get_session_view_value [] 7 "k" (PyVal.str "d")).2 = [] ++ [(7, [])] :=
  ⟨rfl, (get_session_view_value_default_and_creates_entry [] 7 "k" (PyVal.str "d") rfl).1,
    (get_session_view_value_default_and_creates_entry [] 7 "k" (PyVal.str "d") rfl).2⟩

/-- C2: `set_session_value` with `persist` triggers a synchronous
`save_session` exactly in the old (eager) mode — the file then holds the
serialization of the full updated store — while under the new mode, and
whenever `persist` is false, the durable file is left untouched. -/
theorem set_session_value_persistence (bv : Int) (sess : GlobalStore)
    (file : Option String) (name : String) (value : PyVal) (persist : Bool) :
    (persist = true → bv < 4081 →
      (set_session_value bv sess file name value persist).2 =
        some (save_session (upsert sess name value))) ∧
    (4081 ≤ bv → (set_session_value bv sess file name value persist).2 = file) ∧
    (persist = false → (set_session_value bv sess file name value persist).2 = file) := by
  refine ⟨?_, ?_, ?_⟩
  · intro hp hlt
    simp [set_session_value, save_session_write, hp, hlt]
  · intro hge
    simp [set_session_value, not_lt.mpr hge]
  · intro hp
    simp [set_session_value, hp]

/-- Witness for C2: build 4080 with persist writes the full store; build
4081 with persist, and persist=false, leave the file unchanged. -/
theorem set_session_value_persistence_witness :
    (set_session_value 4080 [] Option.none "macros" (PyVal.dict []) true).2 =
      some (save_session (upsert [] "macros" (PyVal.dict []))) ∧
    (set_session_value 4081 [] Option.none "macros" (PyVal.dict []) true).2 = Option.none ∧
    (set_session_value 4080 [] Option.none "macros" (PyVal.dict []) false).2 = Option.none :=
  ⟨(set_session_value_persistence 4080 [] Option.none "macros" (PyVal.dict []) true).1
      rfl (by decide),
    (set_session_value_persistence 4081 [] Option.none "macros" (PyVal.dict []) true).2.1
      (by decide),
    (set_session_value_persistence 4080 [] Option.none "macros" (PyVal.dict []) false).2.2
      rfl⟩

/-- C3: `load_session` returns normally with the state unchanged whenever
the file is missing, the content strips to empty, or the content fails to
parse as JSON; in particular a store that was empty stays empty. -/
theorem load_session_error_tolerance (file : Option String) (st : SessionState)
    (h : file = Option.none ∨
      ∃ c, file = some c ∧ (stripIsEmpty c = true ∨ jsonParse c = .error ())) :
    load_session file st = st := by
  rcases h with rfl | ⟨c, rfl, hc⟩
  · rfl
  · rcases hc with hc | hc
    · rw [load_session, load_session_body, if_pos hc]
    · by_cases ht : stripIsEmpty c = true
      · rw [load_session, load_session_body, if_pos ht]
      · have hb : load_session_body (some c) st = .error (.valueError, st) := by
          rw [load_session_body, if_neg ht]
          have hl : json_loads_hooked c = .error () := by rw [json_loads_hooked, hc]
          rw [hl]
        rw [load_session, hb]

/-- Witness for C3: a missing file, a whitespace-only file, and the
malformed content from the spec all leave the empty state empty. -/
theorem load_session_error_tolerance_witness :
    load_session Option.none ⟨[], []⟩ = ⟨[], []⟩ ∧
    load_session (some "   ") ⟨[], []⟩ = ⟨[], []⟩ ∧
    load_session (some "\x7bnot json") ⟨[], []⟩ = ⟨[], []⟩ :=
  ⟨load_session_error_tolerance Option.none ⟨[], []⟩ (Or.inl rfl),
    load_session_error_tolerance (some "   ") ⟨[], []⟩
      (Or.inr ⟨"   ", rfl, Or.inl rfl⟩),
    load_session_error_tolerance (some "\x7bnot json") ⟨[], []⟩
      (Or.inr ⟨"\x7bnot json", rfl, Or.inr rfl⟩)⟩

/-- C7: `save_session` serializes the entire current store with no
filtering — every entry, allow-listed or not, appears verbatim in the
written text — and the written content is the same whatever the file
held before (full replacement). -/
theorem save_session_serializes_full_store (sess : GlobalStore) (old : Option String) :
    save_session_write sess old = some (json_dumps (storeVal sess)) ∧
    (∀ old2 : Option String, save_session_write sess old2 = save_session_write sess old) ∧
    (∀ (name : String) (v : PyVal), (name, v) ∈ sess →
      List.IsInfix ((escapeString name ++ ": " ++ json_dumps_val v).data)
        ((save_session sess).data)) := by
  refine ⟨rfl, fun _ => rfl, ?_⟩
  intro name v hm
  have hm2 : (PyKey.str name, v) ∈ sess.map (fun kv => (PyKey.str kv.1, kv.2)) := by
    have := List.mem_map_of_mem (fun kv => (PyKey.str kv.1, kv.2)) hm
    simpa using this
  obtain ⟨pre, post, heq⟩ := dumpsKvs_infix _ (PyKey.str name) v hm2
  refine ⟨"\x7b".data ++ pre, post ++ "\x7d".data, ?_⟩
  rw [show (save_session sess).data =
    "\x7b".data ++ (dumpsKvs (sess.map (fun kv => (PyKey.str kv.1, kv.2)))).data
      ++ "\x7d".data by
    rw [save_session, json_dumps, storeVal]
    rw [show json_dumps_val (PyVal.dict (sess.map (fun kv => (PyKey.str kv.1, kv.2)))) =
      "\x7b" ++ dumpsKvs (sess.map (fun kv => (PyKey.str kv.1, kv.2))) ++ "\x7d" from rfl]
    simp [str_data_append]]
  rw [heq]
  rw [show encodeKey (PyKey.str name) = name from rfl]
  simp [List.append_assoc]

/-- Witness for C7: a store holding only the non-allow-listed name
`bogus` is written in full, and the `bogus` entry appears in the text. -/
theorem save_session_serializes_full_store_witness :
    save_session_write [("bogus", PyVal.int 1)] Option.none =
      some (json_dumps (storeVal [("bogus", PyVal.int 1)])) ∧
    List.IsInfix ((escapeString "bogus" ++ ": " ++ json_dumps_val (PyVal.int 1)).data)
      ((save_session [("bogus", PyVal.int 1)]).data) :=
  ⟨(save_session_serializes_full_store [("bogus", PyVal.int 1)] Option.none).1,
    (save_session_serializes_full_store [("bogus", PyVal.int 1)] Option.none).2.2
      "bogus" (PyVal.int 1) (by simp)⟩

/-- C8: under the new capability (build at least 4081) `session_on_exit`
performs exactly one save of the full store; under the old capability it
is a no-op that writes nothing.  In both cases the in-memory store is
unchanged. -/
theorem session_on_exit_policy (bv : Int) (sess : GlobalStore) (file : Option String) :
    (session_on_exit bv sess file).1 = sess ∧
    (4081 ≤ bv → (session_on_exit bv sess file).2 = some (save_session sess)) ∧
    (bv < 4081 → (session_on_exit bv sess file).2 = file) := by
  refine ⟨?_, ?_, ?_⟩
  · rw [session_on_exit]
    split <;> rfl
  · intro hge
    simp [session_on_exit, save_session_write, hge]
  · intro hlt
    simp [session_on_exit, not_le.mpr hlt]

/-- Witness for C8 at builds 4081 and 4080. -/
theorem session_on_exit_policy_witness :
    (session_on_exit 4081 [("k", PyVal.int 2)] Option.none).2 =
      some (save_session [("k", PyVal.int 2)]) ∧
    (session_on_exit 4080 [("k", PyVal.int 2)] Option.none).2 = Option.none :=
  ⟨(session_on_exit_policy 4081 [("k", PyVal.int 2)] Option.none).2.1 (by decide),
    (session_on_exit_policy 4080 [("k", PyVal.int 2)] Option.none).2.2 (by decide)⟩

/-- C9: `session_on_close` leaves no entry for the closed document, and
closing a document with no entry — in particular closing the same
document twice — raises nothing and changes nothing. -/
theorem session_on_close_removes_and_idempotent (views : Views) (viewId : Int)
    (h : (views.map Prod.fst).Nodup) :
    alookup (session_on_close views viewId) viewId = Option.none ∧
    (alookup views viewId = Option.none → session_on_close views viewId = views) ∧
    session_on_close (session_on_close views viewId) viewId =
      session_on_close views viewId := by
  refine ⟨?_, ?_, ?_⟩
  · by_cases hm : viewId ∈ views.map Prod.fst
    · rw [session_on_close, if_pos hm]
      exact (alookup_eq_none_iff _ _).mpr (not_mem_eraseFirst views viewId h)
    · rw [session_on_close, if_neg hm]
      exact (alookup_eq_none_iff _ _).mpr hm
  · intro h0
    rw [session_on_close, if_neg ((alookup_eq_none_iff _ _).mp h0)]
  · by_cases hm : viewId ∈ views.map Prod.fst
    · have hcv : session_on_close views viewId = eraseFirst views viewId := by
        rw [session_on_close, if_pos hm]
      rw [hcv, session_on_close, if_neg (not_mem_eraseFirst views viewId h)]
    · have hcv : session_on_close views viewId = views := by
        rw [session_on_close, if_neg hm]
      rw [hcv]
      exact hcv

/-- Witness for C9 on a one-document store. -/
theorem session_on_close_removes_and_idempotent_witness :
    alookup (session_on_close [(1, [("k", PyVal.str "v")])] 1) 1 = Option.none ∧
    session_on_close ([(1, [("k", PyVal.str "v")])] : Views) 2 =
      [(1, [("k", PyVal.str "v")])] ∧
    session_on_close (session_on_close [(1, [("k", PyVal.str "v")])] 1) 1 =
      session_on_close [(1, [("k", PyVal.str "v")])] 1 :=
  ⟨(session_on_close_removes_and_idempotent [(1, [("k", PyVal.str "v")])] 1 (by simp)).1,
    (session_on_close_removes_and_idempotent [(1, [("k", PyVal.str "v")])] 2 (by simp)).2.1
      rfl,
    (session_on_close_removes_and_idempotent [(1, [("k", PyVal.str "v")])] 1 (by simp)).2.2⟩

/-- C4 is false as stated: decoding the object with the two distinct
keys "01" and "1" (both denoting the integer 1) does not pass every key
and value through pointwise — the hook collapses the two entries and the
value "a" is gone, so the decode differs from the claimed pointwise
transformation `specPromote`. -/
theorem hook_not_pointwise_cex :
    json_loads_hooked "\x7b\"01\": \"a\", \"1\": \"b\"\x7d" =
      .ok (.dict [(.int 1, .str "b")]) ∧
    specPromote (.dict [(.str "01", .str "a"), (.str "1", .str "b")]) =
      .dict [(.int 1, .str "a"), (.int 1, .str "b")] ∧
    applyHook (.dict [(.str "01", .str "a"), (.str "1", .str "b")]) ≠
      specPromote (.dict [(.str "01", .str "a"), (.str "1", .str "b")]) :=
  ⟨rfl, rfl, pv_ne_of_bne rfl⟩

/-- C4 (amended): provided no two keys of any one mapping promote to the
same key, the decode hook is exactly the claimed pointwise
transformation: in every mapping at every nesting depth, each key that
is a digit-only string becomes its integer value, and every other key
and all values pass through unchanged. -/
theorem applyHook_is_pointwise_promotion (v : PyVal)
    (h : noCollision v = true) : applyHook v = specPromote v :=
  applyHook_eq_specPromote v h

/-- Witness for the amended C4 on the spec's own example: decoding
`history: (3 -> x, foo -> y)` promotes the digit key `3` to an integer
and leaves `foo` alone. -/
theorem applyHook_is_pointwise_promotion_witness :
    noCollision (.dict [(.str "history",
      .dict [(.str "3", .str "x"), (.str "foo", .str "y")])]) = true ∧
    applyHook (.dict [(.str "history",
      .dict [(.str "3", .str "x"), (.str "foo", .str "y")])]) =
      specPromote (.dict [(.str "history",
        .dict [(.str "3", .str "x"), (.str "foo", .str "y")])]) ∧
    specPromote (.dict [(.str "history",
      .dict [(.str "3", .str "x"), (.str "foo", .str "y")])]) =
      .dict [(.str "history", .dict [(.int 3, .str "x"), (.str "foo", .str "y")])] :=
  ⟨rfl, applyHook_is_pointwise_promotion
    (.dict [(.str "history", .dict [(.str "3", .str "x"), (.str "foo", .str "y")])]) rfl,
    rfl⟩

/-- C10: the promotion is not injective — the distinct string keys "007"
and "7" of one JSON object promote to the same integer 7, decoding that
object yields one entry where the source had two, and the value "x" is
silently lost (the later entry wins). -/
theorem digit_promotion_not_injective :
    PyKey.str "007" ≠ PyKey.str "7" ∧
    promoteKey (.str "007") = promoteKey (.str "7") ∧
    json_loads_hooked "\x7b\"007\": \"x\", \"7\": \"y\"\x7d" =
      .ok (.dict [(.int 7, .str "y")]) ∧
    (hookPairs [(PyKey.str "007", PyVal.str "x"), (PyKey.str "7", PyVal.str "y")]).length <
      [(PyKey.str "007", PyVal.str "x"), (PyKey.str "7", PyVal.str "y")].length ∧
    (∀ k : PyKey, alookup (hookPairs [(PyKey.str "007", PyVal.str "x"),
      (PyKey.str "7", PyVal.str "y")]) k ≠ some (PyVal.str "x")) := by
  refine ⟨by decide, rfl, rfl, by decide, ?_⟩
  intro k
  rw [show hookPairs [(PyKey.str "007", PyVal.str "x"), (PyKey.str "7", PyVal.str "y")] =
    [(PyKey.int 7, PyVal.str "y")] from rfl]
  rw [alookup]
  split <;> simp [alookup]

/-- C5: when the session file parses and decodes to a well-formed
record, `load_session` finishes without error and distributes every
top-level name: `history` clears and repopulates the history storage
with integer sub-keys, every other allow-listed name is copied into the
global store with its decoded value, and every name outside the
allow-list is discarded without error, never reaching the global
store. -/
theorem load_session_distributes (content : String) (st : SessionState)
    (raw : PyVal) (kvs : List (PyKey × PyVal))
    (hne : stripIsEmpty content = false)
    (hparse : jsonParse content = .ok raw)
    (hhook : applyHook raw = .dict kvs)
    (hwf : wfRecord kvs = true) :
    load_session_body (some content) st = .ok (load_session (some content) st) ∧
    (∀ (s : String) (v : PyVal), (PyKey.str s, v) ∈ kvs → s ∈ acceptKeys →
      s ≠ "history" → alookup (load_session (some content) st).session s = some v) ∧
    (∀ s : String, s ∉ acceptKeys →
      alookup (load_session (some content) st).session s = alookup st.session s) ∧
    (∀ hkvs : List (PyKey × PyVal), (PyKey.str "history", PyVal.dict hkvs) ∈ kvs →
      (load_session (some content) st).history = histSpec hkvs) ∧
    (PyKey.str "history" ∉ kvs.map Prod.fst →
      (load_session (some content) st).history = st.history) := by
  have hl : json_loads_hooked content = .ok (.dict kvs) := by
    simp only [json_loads_hooked, hparse, hhook]
  by_cases hemp : kvs = []
  · subst hemp
    have hb : load_session_body (some content) st = .ok st := by
      rw [load_session_body, if_neg (by simp [hne]), hl]
      rfl
    have hls : load_session (some content) st = st := by rw [load_session, hb]
    refine ⟨by rw [hls, hb], ?_, ?_, ?_, ?_⟩
    · intro s v hm
      exact absurd hm (List.not_mem_nil _)
    · intro s _
      rw [hls]
    · intro hkvs hm
      exact absurd hm (List.not_mem_nil _)
    · intro _
      rw [hls]
  · obtain ⟨st', hrun, p1, p2, p3, p4, p5⟩ := loadLoop_spec kvs st hwf
    have ht : pyTruthy (.dict kvs) = true := by
      cases kvs with
      | nil => exact absurd rfl hemp
      | cons a l => rfl
    have hb : load_session_body (some content) st = loadLoop kvs st := by
      rw [load_session_body, if_neg (by simp [hne]), hl]
      simp only [ht, if_true]
    have hls : load_session (some content) st = st' := by rw [load_session, hb, hrun]
    refine ⟨by rw [hls, hb, hrun], ?_, ?_, ?_, ?_⟩
    · intro s v hm hacc hnh
      rw [hls]
      exact p3 s v hm hacc hnh
    · intro s hs
      rw [hls]
      exact p2 s hs
    · intro hkvs hm
      rw [hls]
      exact p4 hkvs hm
    · intro hnm
      rw [hls]
      exact p5 hnm

/-- Witness for C5 on the record with names `history`, `bogus` and
`macros`: `macros` lands in the global store, `bogus` is dropped (the
pre-existing binding is untouched), the history storage is rebuilt, and
the body reports no error. -/
theorem load_session_distributes_witness :
    load_session_body (some "\x7b\"history\": \x7b\"3\": \"x\"\x7d, \"bogus\": 1, \"macros\": \x7b\x7d\x7d")
        ⟨[("ephemeral", PyVal.int 9)], [(99, PyVal.str "old")]⟩ =
      .ok (load_session (some "\x7b\"history\": \x7b\"3\": \"x\"\x7d, \"bogus\": 1, \"macros\": \x7b\x7d\x7d")
        ⟨[("ephemeral", PyVal.int 9)], [(99, PyVal.str "old")]⟩) ∧
    alookup (load_session (some "\x7b\"history\": \x7b\"3\": \"x\"\x7d, \"bogus\": 1, \"macros\": \x7b\x7d\x7d")
        ⟨[("ephemeral", PyVal.int 9)], [(99, PyVal.str "old")]⟩).session "macros" =
      some (PyVal.dict []) ∧
    alookup (load_session (some "\x7b\"history\": \x7b\"3\": \"x\"\x7d, \"bogus\": 1, \"macros\": \x7b\x7d\x7d")
        ⟨[("ephemeral", PyVal.int 9)], [(99, PyVal.str "old")]⟩).session "bogus" =
      alookup ([("ephemeral", PyVal.int 9)] : GlobalStore) "bogus" ∧
    (load_session (some "\x7b\"history\": \x7b\"3\": \"x\"\x7d, \"bogus\": 1, \"macros\": \x7b\x7d\x7d")
        ⟨[("ephemeral", PyVal.int 9)], [(99, PyVal.str "old")]⟩).history =
      histSpec [(PyKey.int 3, PyVal.str "x")] :=
  ⟨(load_session_distributes
      "\x7b\"history\": \x7b\"3\": \"x\"\x7d, \"bogus\": 1, \"macros\": \x7b\x7d\x7d"
      ⟨[("ephemeral", PyVal.int 9)], [(99, PyVal.str "old")]⟩
      (.dict [(.str "history", .dict [(.str "3", .str "x")]), (.str "bogus", .int 1),
        (.str "macros", .dict [])])
      [(.str "history", .dict [(.int 3, .str "x")]), (.str "bogus", .int 1),
        (.str "macros", .dict [])]
      rfl rfl rfl rfl).1,
    (load_session_distributes
      "\x7b\"history\": \x7b\"3\": \"x\"\x7d, \"bogus\": 1, \"macros\": \x7b\x7d\x7d"
      ⟨[("ephemeral", PyVal.int 9)], [(99, PyVal.str "old")]⟩
      (.dict [(.str "history", .dict [(.str "3", .str "x")]), (.str "bogus", .int 1),
        (.str "macros", .dict [])])
      [(.str "history", .dict [(.int 3, .str "x")]), (.str "bogus", .int 1),
        (.str "macros", .dict [])]
      rfl rfl rfl rfl).2.1 "macros" (PyVal.dict []) (by simp) (by simp [acceptKeys])
      (by decide),
    (load_session_distributes
      "\x7b\"history\": \x7b\"3\": \"x\"\x7d, \"bogus\": 1, \"macros\": \x7b\x7d\x7d"
      ⟨[("ephemeral", PyVal.int 9)], [(99, PyVal.str "old")]⟩
      (.dict [(.str "history", .dict [(.str "3", .str "x")]), (.str "bogus", .int 1),
        (.str "macros", .dict [])])
      [(.str "history", .dict [(.int 3, .str "x")]), (.str "bogus", .int 1),
        (.str "macros", .dict [])]
      rfl rfl rfl rfl).2.2.1 "bogus" (by simp [acceptKeys]),
    (load_session_distributes
      "\x7b\"history\": \x7b\"3\": \"x\"\x7d, \"bogus\": 1, \"macros\": \x7b\x7d\x7d"
      ⟨[("ephemeral", PyVal.int 9)], [(99, PyVal.str "old")]⟩
      (.dict [(.str "history", .dict [(.str "3", .str "x")]), (.str "bogus", .int 1),
        (.str "macros", .dict [])])
      [(.str "history", .dict [(.int 3, .str "x")]), (.str "bogus", .int 1),
        (.str "macros", .dict [])]
      rfl rfl rfl rfl).2.2.2.1 [(PyKey.int 3, PyVal.str "x")] (by simp)⟩

/-- Names on the allow-list are not digit strings. -/
theorem acceptKeys_not_digit (s : String) (h : s ∈ acceptKeys) :
    pyIsDigit s = false := by
  simp only [acceptKeys, List.mem_cons, List.not_mem_nil, or_false] at h
  rcases h with rfl | rfl | rfl | rfl | rfl <;> rfl

/-- A GlobalStore fit for the round trip: pairwise distinct names, all
on the allow-list, every value stable (each nested mapping has distinct
keys which are nonnegative integers or non-digit strings), and a
well-formed integer-keyed mapping under `history` when present. -/
def roundtripOK : GlobalStore → Bool
  | [] => true
  | (name, v) :: rest =>
    (decide (name ∉ rest.map Prod.fst) && decide (name ∈ acceptKeys)) &&
      (stableVal v && entryOK (.str name) v) && roundtripOK rest

theorem roundtripOK_stableKvs (sess : GlobalStore) (h : roundtripOK sess = true) :
    stableKvs (sess.map (fun kv => (PyKey.str kv.1, kv.2))) = true := by
  induction sess with
  | nil => rfl
  | cons kv rest ih =>
    obtain ⟨name, v⟩ := kv
    rw [roundtripOK] at h
    simp only [Bool.and_eq_true, decide_eq_true_eq] at h
    obtain ⟨⟨⟨hnm, hacc⟩, hsv, hek⟩, hrest⟩ := h
    rw [List.map_cons, stableKvs]
    simp only [Bool.and_eq_true]
    refine ⟨⟨?_, hsv⟩, ih hrest⟩
    rw [stableKey, acceptKeys_not_digit name hacc]
    rfl

theorem roundtripOK_nodup (sess : GlobalStore) (h : roundtripOK sess = true) :
    nodupKeys ((sess.map (fun kv => (PyKey.str kv.1, kv.2))).map Prod.fst) = true := by
  induction sess with
  | nil => rfl
  | cons kv rest ih =>
    obtain ⟨name, v⟩ := kv
    rw [roundtripOK] at h
    simp only [Bool.and_eq_true, decide_eq_true_eq] at h
    obtain ⟨⟨⟨hnm, hacc⟩, hsv, hek⟩, hrest⟩ := h
    have hnot : PyKey.str name ∉ (rest.map (fun kv => (PyKey.str kv.1, kv.2))).map Prod.fst := by
      intro hm
      rw [List.map_map] at hm
      obtain ⟨kv, hkv, he⟩ := List.mem_map.mp hm
      have : kv.1 = name := PyKey.str.inj he
      exact hnm (this ▸ List.mem_map_of_mem Prod.fst hkv)
    simp only [List.map_cons, nodupKeys, Bool.and_eq_true, decide_eq_true_eq]
    exact ⟨hnot, ih hrest⟩

theorem roundtripOK_stableVal (sess : GlobalStore) (h : roundtripOK sess = true) :
    stableVal (storeVal sess) = true := by
  rw [storeVal, stableVal, Bool.and_eq_true]
  exact ⟨roundtripOK_nodup sess h, roundtripOK_stableKvs sess h⟩

theorem roundtripOK_wfRecord (sess : GlobalStore) (h : roundtripOK sess = true) :
    wfRecord (sess.map (fun kv => (PyKey.str kv.1, kv.2))) = true := by
  induction sess with
  | nil => rfl
  | cons kv rest ih =>
    obtain ⟨name, v⟩ := kv
    rw [roundtripOK] at h
    simp only [Bool.and_eq_true, decide_eq_true_eq] at h
    obtain ⟨⟨⟨hnm, hacc⟩, hsv, hek⟩, hrest⟩ := h
    have hnot : PyKey.str name ∉ (rest.map (fun kv => (PyKey.str kv.1, kv.2))).map Prod.fst := by
      intro hm
      rw [List.map_map] at hm
      obtain ⟨kv, hkv, he⟩ := List.mem_map.mp hm
      have : kv.1 = name := PyKey.str.inj he
      exact hnm (this ▸ List.mem_map_of_mem Prod.fst hkv)
    rw [List.map_cons, wfRecord]
    simp only [Bool.and_eq_true, decide_eq_true_eq]
    exact ⟨⟨hnot, hek⟩, ih hrest⟩

theorem roundtripOK_accept (sess : GlobalStore) (h : roundtripOK sess = true) :
    ∀ (name : String) (v : PyVal), (name, v) ∈ sess → name ∈ acceptKeys := by
  induction sess with
  | nil => intro name v hm; exact absurd hm (List.not_mem_nil _)
  | cons kv rest ih =>
    obtain ⟨n0, v0⟩ := kv
    rw [roundtripOK] at h
    simp only [Bool.and_eq_true, decide_eq_true_eq] at h
    obtain ⟨⟨⟨hnm, hacc⟩, hsv, hek⟩, hrest⟩ := h
    intro name v hm
    rcases List.mem_cons.mp hm with he | hm
    · have : name = n0 := congrArg Prod.fst he
      exact this ▸ hacc
    · exact ih hrest name v hm

/-- C6 is false as stated: the store holding only the allow-listed name
`macros`, whose value has the digit string key "7", is not restored by
decode-of-encode — the key comes back as the integer 7 instead of the
string "7", so the values are not equivalent. -/
theorem encode_decode_roundtrip_cex :
    "macros" ∈ acceptKeys ∧
    applyHook (encodeVal (storeVal
        [("macros", PyVal.dict [(PyKey.str "7", PyVal.str "x")])])) ≠
      storeVal [("macros", PyVal.dict [(PyKey.str "7", PyVal.str "x")])] ∧
    applyHook (encodeVal (storeVal
        [("macros", PyVal.dict [(PyKey.str "7", PyVal.str "x")])])) =
      storeVal [("macros", PyVal.dict [(PyKey.int 7, PyVal.str "x")])] :=
  ⟨by decide, pv_ne_of_bne rfl, rfl⟩

/-- C6 (amended): for a store of allow-listed names whose values are
stable — no negative integer keys and no digit-only string keys in any
nested mapping, keys pairwise distinct — decode of encode restores the
store exactly, and re-loading a file that parses to the encoded record
routes every non-history name back into the global store with its
original value and the `history` name into the history delegate. -/
theorem encode_decode_roundtrip_and_routes (sess : GlobalStore) (st : SessionState)
    (content : String)
    (h : roundtripOK sess = true)
    (hne : stripIsEmpty content = false)
    (hparse : jsonParse content = .ok (encodeVal (storeVal sess))) :
    applyHook (encodeVal (storeVal sess)) = storeVal sess ∧
    load_session_body (some content) st = .ok (load_session (some content) st) ∧
    (∀ (name : String) (v : PyVal), (name, v) ∈ sess → name ≠ "history" →
      alookup (load_session (some content) st).session name = some v) ∧
    (∀ hkvs : List (PyKey × PyVal), ("history", PyVal.dict hkvs) ∈ sess →
      (load_session (some content) st).history = histSpec hkvs) := by
  have hrt : applyHook (encodeVal (storeVal sess)) = storeVal sess :=
    encode_roundtrip _ (roundtripOK_stableVal sess h)
  have hwf := roundtripOK_wfRecord sess h
  have hl : json_loads_hooked content = .ok (storeVal sess) := by
    simp only [json_loads_hooked, hparse, hrt]
  rw [storeVal] at hl
  by_cases hemp : sess = []
  · subst hemp
    have hb : load_session_body (some content) st = .ok st := by
      rw [load_session_body, if_neg (by simp [hne]), hl]
      rfl
    have hls : load_session (some content) st = st := by rw [load_session, hb]
    refine ⟨hrt, by rw [hls, hb], ?_, ?_⟩
    · intro name v hm
      exact absurd hm (List.not_mem_nil _)
    · intro hkvs hm
      exact absurd hm (List.not_mem_nil _)
  · obtain ⟨st', hrun, p1, p2, p3, p4, p5⟩ :=
      loadLoop_spec (sess.map (fun kv => (PyKey.str kv.1, kv.2))) st hwf
    have ht : pyTruthy (.dict (sess.map (fun kv => (PyKey.str kv.1, kv.2)))) = true := by
      cases sess with
      | nil => exact absurd rfl hemp
      | cons a l => rfl
    have hb : load_session_body (some content) st =
        loadLoop (sess.map (fun kv => (PyKey.str kv.1, kv.2))) st := by
      rw [load_session_body, if_neg (by simp [hne]), hl]
      simp only [ht, if_true]
    have hls : load_session (some content) st = st' := by rw [load_session, hb, hrun]
    refine ⟨hrt, by rw [hls, hb, hrun], ?_, ?_⟩
    · intro name v hm hnh
      rw [hls]
      have hm2 : (PyKey.str name, v) ∈ sess.map (fun kv => (PyKey.str kv.1, kv.2)) := by
        have h2 := List.mem_map_of_mem (fun kv => (PyKey.str kv.1, kv.2)) hm
        simpa using h2
      exact p3 name v hm2 (roundtripOK_accept sess h name v hm) hnh
    · intro hkvs hm
      rw [hls]
      have hm2 : (PyKey.str "history", PyVal.dict hkvs) ∈
          sess.map (fun kv => (PyKey.str kv.1, kv.2)) := by
        have h2 := List.mem_map_of_mem (fun kv => (PyKey.str kv.1, kv.2)) hm
        simpa using h2
      exact p4 hkvs hm2

/-- Witness for the amended C6: a store with a substitute pattern and an
integer-keyed history mapping survives decode-of-encode exactly, and
re-loading the encoded text puts the pattern back into the global store
and the history entries into the history storage. -/
theorem encode_decode_roundtrip_and_routes_witness :
    applyHook (encodeVal (storeVal [("ex_substitute_last_pattern", PyVal.str "pat"),
        ("history", PyVal.dict [(PyKey.int 3, PyVal.str "x")])])) =
      storeVal [("ex_substitute_last_pattern", PyVal.str "pat"),
        ("history", PyVal.dict [(PyKey.int 3, PyVal.str "x")])] ∧
    alookup (load_session
        (some "\x7b\"ex_substitute_last_pattern\": \"pat\", \"history\": \x7b\"3\": \"x\"\x7d\x7d")
        ⟨[], []⟩).session "ex_substitute_last_pattern" = some (PyVal.str "pat") ∧
    (load_session
        (some "\x7b\"ex_substitute_last_pattern\": \"pat\", \"history\": \x7b\"3\": \"x\"\x7d\x7d")
        ⟨[], []⟩).history = histSpec [(PyKey.int 3, PyVal.str "x")] :=
  ⟨(encode_decode_roundtrip_and_routes
      [("ex_substitute_last_pattern", PyVal.str "pat"),
        ("history", PyVal.dict [(PyKey.int 3, PyVal.str "x")])] ⟨[], []⟩
      "\x7b\"ex_substitute_last_pattern\": \"pat\", \"history\": \x7b\"3\": \"x\"\x7d\x7d"
      rfl rfl rfl).1,
    (encode_decode_roundtrip_and_routes
      [("ex_substitute_last_pattern", PyVal.str "pat"),
        ("history", PyVal.dict [(PyKey.int 3, PyVal.str "x")])] ⟨[], []⟩
      "\x7b\"ex_substitute_last_pattern\": \"pat\", \"history\": \x7b\"3\": \"x\"\x7d\x7d"
      rfl rfl rfl).2.2.1 "ex_substitute_last_pattern" (PyVal.str "pat") (by simp)
      (by decide),
    (encode_decode_roundtrip_and_routes
      [("ex_substitute_last_pattern", PyVal.str "pat"),
        ("history", PyVal.dict [(PyKey.int 3, PyVal.str "x")])] ⟨[], []⟩
      "\x7b\"ex_substitute_last_pattern\": \"pat\", \"history\": \x7b\"3\": \"x\"\x7d\x7d"
      rfl rfl rfl).2.2.2 [(PyKey.int 3, PyVal.str "x")] (by simp)⟩

end NvSession
